import Mathlib

/-!
# Verification of the community front-end's event registry and drag-reorder utilities

This file gives a shallow embedding of the two stateful browser utilities of
the repository — the event-listener registry (`events.js`: `on`, `off`, `once`,
`removeAll`, `removeAllForPage`) and the drag-and-drop list-reorder controller
(`drag-drop.js`: `createDraggableList` and its handlers, plus the inline drag
handlers of the post-edit image page) — and proves properties of the
specification against them.

Modelling conventions:
* A DOM element is identified by a `Nat`; a JavaScript function value is a
  `Handler` carrying both its reference identity (`id`) and the source text
  returned by `Function.prototype.toString` (`src`).
* Arguments that may be `null`/`undefined`/non-function are `Option`s; the
  JS truthiness of an optional string (absent or `""` is falsy) is `truthyStr`.
* The two bookkeeping maps (`listenersByElement`, keyed element → event type →
  Set of `ListenerMeta`, and `listenersByPageId`, keyed pageId → Set of
  `ListenerMeta`) are flattened into insertion-ordered lists of the
  `ListenerMeta` objects they contain; the object identity of each
  `ListenerMeta` allocation (JS Sets hold and delete by reference) is an
  explicit `uid` drawn from a counter.  The nested-map lookups become list
  filters, and the implicit deletion of emptied inner maps is invisible in the
  flattened view, which is observationally equivalent.
* The platform's native listener table is a list of `NativeEntry`;
  `addEventListener` is idempotent per (target, type, callback, capture) and
  `removeEventListener` removes the first (hence, only) matching entry.
-/

set_option autoImplicit false

namespace CommunityFE

/-- A JavaScript function value.  `id` models reference identity — two
closures produced by separate evaluations of a function expression are
distinct values even when their source text coincides — while `src` models
the string returned by `Function.prototype.toString`. -/
structure Handler where
  id : Nat
  src : String
deriving DecidableEq

/-- The `options` argument of `events.on`: the `once` and `capture` flags
after the `|| false` normalisation performed by the source, and the raw
`pageId` property (absent, or a string that may be empty). -/
structure EvOptions where
  once : Bool := false
  capture : Bool := false
  pageId : Option String := none
deriving DecidableEq

/-- JS truthiness of an optional string: `undefined`/`null` and `""` are
falsy, every other string is truthy. -/
def truthyStr : Option String → Bool
  | none => false
  | some s => !(s == "")

/-- `ListenerMeta` from `events.js`: one recorded subscription.  `uid` models
the JavaScript object identity of the `new ListenerMeta(...)` allocation
(the registry's Sets store and delete these objects by reference);
`pageId` is the constructor's `options.pageId || null`. -/
structure ListenerMeta where
  uid : Nat
  element : Nat
  eventType : String
  handler : Handler
  opts : EvOptions
  pageId : Option String
deriving DecidableEq

/-- `ListenerMeta.getKey()`: the template literal
`` `${this.eventType}:${this.handler.toString()}` ``. -/
def ListenerMeta.getKey (m : ListenerMeta) : String :=
  m.eventType ++ ":" ++ m.handler.src

/-- One entry of the platform's native listener table.  The platform keys
listeners on (target, event type, callback reference, capture flag); the
`once` flag only affects firing behaviour, which is outside the registry's
operations, so it is not recorded here. -/
structure NativeEntry where
  element : Nat
  eventType : String
  handler : Handler
  capture : Bool
deriving DecidableEq

/-- The native table entry that a recorded subscription corresponds to
(its registration used `options.capture || false`). -/
def nativeOf (m : ListenerMeta) : NativeEntry :=
  ⟨m.element, m.eventType, m.handler, m.opts.capture⟩

/-- `element.addEventListener`: a no-op if an identical (type, callback,
capture) listener is already attached to the target, otherwise appends. -/
def addListener (tbl : List NativeEntry) (n : NativeEntry) : List NativeEntry :=
  if n ∈ tbl then tbl else tbl ++ [n]

/-- `element.removeEventListener`: removes the matching listener if attached
(there can be at most one, since `addEventListener` deduplicates). -/
def removeListener (tbl : List NativeEntry) (n : NativeEntry) : List NativeEntry :=
  tbl.erase n

/-- The registry's global mutable state: the two bookkeeping maps
(flattened, in insertion order), the native listener table, and the counter
supplying the identity of the next `ListenerMeta` allocation. -/
structure EvState where
  nextUid : Nat
  byElement : List ListenerMeta
  byPage : List ListenerMeta
  native : List NativeEntry
deriving DecidableEq

/-- The state at script load: both maps empty, nothing attached. -/
def initState : EvState := ⟨0, [], [], []⟩

/-- The contents of `listenersByElement.get(e).get(t)` (empty list when the
maps have no entry). -/
def typeListenersOf (s : EvState) (e : Nat) (t : String) : List ListenerMeta :=
  s.byElement.filter fun m => m.element == e && m.eventType == t

/-- The duplicate check of `events.on`: some recorded subscription for the
same element and event type has an equal `getKey()` (event type plus the
handler's source text). -/
def hasDuplicate (s : EvState) (e : Nat) (t : String) (h : Handler) : Bool :=
  (typeListenersOf s e t).any fun m => m.getKey == t ++ ":" ++ h.src

/-- The `ListenerMeta` allocated by `events.on` (constructor of
`ListenerMeta`: `this.pageId = options.pageId || null`). -/
def newMeta (s : EvState) (e : Nat) (t : String) (h : Handler) (opts : EvOptions) :
    ListenerMeta :=
  { uid := s.nextUid, element := e, eventType := t, handler := h, opts := opts,
    pageId := if truthyStr opts.pageId then opts.pageId else none }

/-- `events.on(element, eventType, handler, options)` (named `on'` because `on`
is a reserved notation token in Lean).

Returns `false` (state untouched) on a falsy element, falsy event type or
non-function handler, and on a duplicate (same element, event type and
handler `getKey`).  Otherwise records the subscription in both maps (the
page map only under a truthy `options.pageId`) and attaches the platform
listener, returning `true`. -/
def on' (s : EvState) (element : Option Nat) (eventType : String)
    (handler : Option Handler) (opts : EvOptions) : Bool × EvState :=
  match element, handler with
  | some e, some h =>
    if eventType = "" then (false, s)
    else if hasDuplicate s e eventType h then (false, s)
    else
      let meta := newMeta s e eventType h opts
      (true,
        { nextUid := s.nextUid + 1,
          byElement := s.byElement ++ [meta],
          byPage := if truthyStr opts.pageId then s.byPage ++ [meta] else s.byPage,
          native := addListener s.native (nativeOf meta) })
  | _, _ => (false, s)

/-- `events.off(element, eventType, handler)`.

Finds the first recorded subscription for (element, eventType) whose
`getKey()` equals `` `${eventType}:${handler.toString()}` ``; removes it from
both maps and calls `removeEventListener(eventType, handler,
found.options.capture || false)` — note that the native detach uses the
handler *passed to `off`*, not the handler stored in the found
subscription. -/
def off (s : EvState) (element : Option Nat) (eventType : String)
    (handler : Option Handler) : Bool × EvState :=
  match element, handler with
  | some e, some h =>
    if eventType = "" then (false, s)
    else
      match (typeListenersOf s e eventType).find?
          (fun m => m.getKey == eventType ++ ":" ++ h.src) with
      | none => (false, s)
      | some found =>
        (true,
          { nextUid := s.nextUid,
            byElement := s.byElement.filter fun m => m.uid != found.uid,
            byPage :=
              if truthyStr found.pageId then
                s.byPage.filter fun m => m.uid != found.uid
              else s.byPage,
            native := removeListener s.native ⟨e, eventType, h, found.opts.capture⟩ })
  | _, _ => (false, s)

/-- `events.once`: delegates to `on` with `once: true`. -/
def once (s : EvState) (element : Option Nat) (eventType : String)
    (handler : Option Handler) (opts : EvOptions) : Bool × EvState :=
  on' s element eventType handler { opts with once := true }

/-- `events.removeAll(element)`: detaches every recorded subscription of the
element, removes them from the page map, drops the element's entry from the
element map, and returns the count removed (0 for a falsy element). -/
def removeAll (s : EvState) (element : Option Nat) : Nat × EvState :=
  match element with
  | none => (0, s)
  | some e =>
    let metas := s.byElement.filter fun m => m.element == e
    (metas.length,
      { nextUid := s.nextUid,
        byElement := s.byElement.filter fun m => m.element != e,
        byPage := s.byPage.filter fun pm =>
          !(metas.any fun m => m.uid == pm.uid && truthyStr m.pageId),
        native := metas.foldl (fun tbl m => removeListener tbl (nativeOf m)) s.native })

/-- `events.removeAllForPage(pageId)`: detaches every subscription recorded
under the page identifier, removes those subscriptions from the element map,
drops the page entry, and returns the count removed (0 for a falsy pageId or
an unknown page).  A meta sits in the page map under key `pageId` exactly
when its normalised `pageId` field equals it. -/
def removeAllForPage (s : EvState) (pageId : String) : Nat × EvState :=
  if pageId = "" then (0, s)
  else
    let metas := s.byPage.filter fun m => m.pageId == some pageId
    (metas.length,
      { nextUid := s.nextUid,
        byElement := s.byElement.filter fun m => !(metas.any fun mm => mm.uid == m.uid),
        byPage := s.byPage.filter fun m => !(m.pageId == some pageId),
        native := metas.foldl (fun tbl m => removeListener tbl (nativeOf m)) s.native })

/-- Number of platform listeners attached for a given (target, event type,
callback reference), across capture flags. -/
def nativeCount (s : EvState) (e : Nat) (t : String) (h : Handler) : Nat :=
  (s.native.filter fun n => n.element == e && n.eventType == t && n.handler == h).length

end CommunityFE

namespace CommunityFE

/-! ## Drag-and-drop reorder controller (`drag-drop.js`, `createDraggableList`)

List items are identified by their `data-index` value (a `Nat`); within one
rendered list the items are distinct DOM nodes with distinct indices, so DOM
node identity comparisons (`targetItem !== touchedElement`) are modelled as
index comparisons.  Each handler consumes the controller's mutable drag
state and produces the new state together with the calls it makes to the
caller's callbacks (`onReorder`, `onRender`) and the style writes it
performs. -/

/-- The `options` argument of `createDraggableList`.  The three callback
options are modelled by presence flags (the source only checks their
truthiness before use); `container` is the container element or
`null`/`undefined`; `pageId` with `""` is falsy. -/
structure DragListOptions where
  container : Option Nat
  getItems : Bool
  onReorder : Bool
  onRender : Bool
  pageId : String
deriving DecidableEq

/-- The option validation of `createDraggableList`: when `container`,
`getItems`, `onReorder`, `onRender` or `pageId` is falsy it *throws*
`new Error('createDraggableList: Required options missing')` — modelled as
`Except.error`; otherwise the controller object is created (`Except.ok`). -/
def createDraggableList (o : DragListOptions) : Except String Unit :=
  if o.container.isNone || !o.getItems || !o.onReorder || !o.onRender || o.pageId == "" then
    Except.error "createDraggableList: Required options missing"
  else
    Except.ok ()

/-- The controller's mutable drag-session state: `draggedIndex`,
`touchedElement`, and the `dataset.targetIndex` attribute stored on the
touched element during a touch gesture (`null`/absent modelled as
`none`).  The touch start coordinates only feed the transform style write
and are folded into the visual trace. -/
structure DragState where
  draggedIndex : Option Nat
  touchedElement : Option Nat
  targetIndexData : Option Nat
deriving DecidableEq

/-- One style write performed by a drag handler.  `setLift` covers the
"lifted" looks (reduced opacity, raised z-index), `setHighlight` the
drop-target feedback (border plus background), `setTransform` the touch
translation; the `clear…` forms are the corresponding resets to the empty
or default style values. -/
inductive VisualOp where
  | setLift (item : Nat)
  | clearLift (item : Nat)
  | setHighlight (item : Nat)
  | clearHighlight (item : Nat)
  | setTransform (item : Nat)
  | clearTransform (item : Nat)
deriving DecidableEq

/-- Whether a style write only clears transient visual state. -/
def VisualOp.isClearing : VisualOp → Bool
  | clearLift _ => true
  | clearHighlight _ => true
  | clearTransform _ => true
  | _ => false

/-- What one handler invocation did: the resulting drag state, the
invocations of the caller's reorder callback (in order, with their
arguments), the number of invocations of the caller's render callback, and
the style writes. -/
structure HandlerResult where
  state : DragState
  reorderCalls : List (Nat × Nat)
  renderCalls : Nat
  visuals : List VisualOp
deriving DecidableEq

/-- `handleDragStart`: records the source index from the item's
`data-index` and lifts the item. -/
def handleDragStart (s : DragState) (itemIndex : Nat) : HandlerResult :=
  { state := { s with draggedIndex := some itemIndex },
    reorderCalls := [], renderCalls := 0,
    visuals := [.setLift itemIndex] }

/-- `handleDragOver`: when a drag is active and the hovered item differs
from the source, resets every item's highlight and highlights the hovered
item; state is untouched. -/
def handleDragOver (s : DragState) (targetIndex : Nat) (allItems : List Nat) :
    HandlerResult :=
  match s.draggedIndex with
  | some d =>
    if d ≠ targetIndex then
      { state := s, reorderCalls := [], renderCalls := 0,
        visuals := allItems.map .clearHighlight ++ [.setHighlight targetIndex] }
    else
      { state := s, reorderCalls := [], renderCalls := 0, visuals := [] }
  | none => { state := s, reorderCalls := [], renderCalls := 0, visuals := [] }

/-- `handleDrop` (pointer modality): when a drag is active and the drop
target's index differs from the source, calls `onReorder(draggedIndex,
targetIndex)` and then `onRender()`; in every case clears the drop target's
highlight.  `draggedIndex` itself is reset by `handleDragEnd`, not here. -/
def handleDrop (s : DragState) (targetIndex : Nat) : HandlerResult :=
  match s.draggedIndex with
  | some d =>
    if d ≠ targetIndex then
      { state := s, reorderCalls := [(d, targetIndex)], renderCalls := 1,
        visuals := [.clearHighlight targetIndex] }
    else
      { state := s, reorderCalls := [], renderCalls := 0,
        visuals := [.clearHighlight targetIndex] }
  | none =>
    { state := s, reorderCalls := [], renderCalls := 0,
      visuals := [.clearHighlight targetIndex] }

/-- `handleDragEnd`: restores the dragged item's opacity, clears every
item's highlight, and resets `draggedIndex`. -/
def handleDragEnd (s : DragState) (itemIndex : Nat) (allItems : List Nat) :
    HandlerResult :=
  { state := { s with draggedIndex := none },
    reorderCalls := [], renderCalls := 0,
    visuals := .clearLift itemIndex :: allItems.map .clearHighlight }

/-- `handleTouchStart`: records the touched element and its index and lifts
it. -/
def handleTouchStart (s : DragState) (itemIndex : Nat) : HandlerResult :=
  { state := { s with touchedElement := some itemIndex, draggedIndex := some itemIndex },
    reorderCalls := [], renderCalls := 0,
    visuals := [.setLift itemIndex] }

/-- `handleTouchMove`: a no-op without a touched element.  Otherwise moves
the touched element (transform), resets the highlight of every other item,
and — when the item under the finger exists and differs from the touched
element — highlights it and stores its index in `dataset.targetIndex`;
otherwise deletes `dataset.targetIndex`. -/
def handleTouchMove (s : DragState) (elementBelow : Option Nat) (allItems : List Nat) :
    HandlerResult :=
  match s.touchedElement with
  | none => { state := s, reorderCalls := [], renderCalls := 0, visuals := [] }
  | some te =>
    let baseVisuals :=
      VisualOp.setTransform te :: (allItems.filter fun i => i != te).map .clearHighlight
    match elementBelow with
    | some j =>
      if j ≠ te then
        { state := { s with targetIndexData := some j },
          reorderCalls := [], renderCalls := 0,
          visuals := baseVisuals ++ [.setHighlight j] }
      else
        { state := { s with targetIndexData := none },
          reorderCalls := [], renderCalls := 0, visuals := baseVisuals }
    | none =>
      { state := { s with targetIndexData := none },
        reorderCalls := [], renderCalls := 0, visuals := baseVisuals }

/-- `handleTouchEnd`: a no-op without a touched element.  Otherwise calls
`onReorder(draggedIndex, finalTargetIndex)` when a pending target index is
stored and differs from the source, clears all transient styles and the
drag-session state — and then *unconditionally* calls `onRender()`. -/
def handleTouchEnd (s : DragState) (allItems : List Nat) : HandlerResult :=
  match s.touchedElement with
  | none => { state := s, reorderCalls := [], renderCalls := 0, visuals := [] }
  | some te =>
    let reorder :=
      match s.targetIndexData, s.draggedIndex with
      | some ft, some d => if d ≠ ft then [(d, ft)] else []
      | _, _ => []
    { state := { draggedIndex := none, touchedElement := none, targetIndexData := none },
      reorderCalls := reorder,
      renderCalls := 1,
      visuals := .clearLift te :: .clearTransform te :: allItems.map .clearHighlight }

/-- The conventional splice-remove-then-insert reorder
(`arr.splice(oldIndex, 1)` followed by `arr.splice(newIndex, 0, moved)`),
as performed by the post-edit page's drop handler and expected of
`createDraggableList` callers.  Modelled for in-range `oldIndex` (the
handlers obtain both indices from `data-index` attributes of rendered
items, which are in range). -/
def spliceReorder {α : Type} (l : List α) (oldIndex newIndex : Nat) : List α :=
  match l[oldIndex]? with
  | some x => (l.eraseIdx oldIndex).insertIdx newIndex x
  | none => l

/-- `handleDrop` of the post-edit image page (`part_009`): when a drag is
active and the indices differ, splices `state.allImages` in place and calls
`displayAllImages()` (the render); returns the new image list and the
number of render calls. -/
def handleDrop009 {α : Type} (draggedIndex : Option Nat) (targetIndex : Nat)
    (allImages : List α) : List α × Nat :=
  match draggedIndex with
  | some d =>
    if d ≠ targetIndex then (spliceReorder allImages d targetIndex, 1)
    else (allImages, 0)
  | none => (allImages, 0)

/-! ## Well-formedness of registry states -/

/-- Well-formedness of a registry state.  The conjuncts are, in order:
every recorded subscription's `uid` is below the allocation counter; the
element map holds no repeated subscription object; a `uid` identifies its
subscription; the page map holds exactly the recorded subscriptions with a
truthy `pageId`; a (element, event type, handler source) triple identifies
its subscription (the registry's duplicate check guarantees this); every
recorded subscription's platform listener is attached; and the native table
is duplicate-free (as `addEventListener` guarantees). -/
def WF (s : EvState) : Prop :=
  (∀ m ∈ s.byElement, m.uid < s.nextUid) ∧
  s.byElement.Nodup ∧
  (∀ a ∈ s.byElement, ∀ b ∈ s.byElement, a.uid = b.uid → a = b) ∧
  s.byPage = s.byElement.filter (fun m => truthyStr m.pageId) ∧
  (∀ a ∈ s.byElement, ∀ b ∈ s.byElement,
    a.element = b.element → a.eventType = b.eventType →
    a.handler.src = b.handler.src → a = b) ∧
  (∀ m ∈ s.byElement, nativeOf m ∈ s.native) ∧
  s.native.Nodup

/-- The platform's native listener table records exactly the registry's
bookkeeping: every attached listener corresponds to a recorded
subscription and vice versa. -/
def Consistent (s : EvState) : Prop :=
  (∀ n ∈ s.native, n ∈ s.byElement.map nativeOf) ∧
  (∀ m ∈ s.byElement, nativeOf m ∈ s.native)

instance decidableWF (s : EvState) : Decidable (WF s) := by
  unfold WF
  infer_instance

instance decidableConsistent (s : EvState) : Decidable (Consistent s) := by
  unfold Consistent
  infer_instance

/-- Concrete handlers and a two-subscription page state used by witnesses. -/
def witH1 : Handler := ⟨0, "onSubmitForm"⟩

def witH2 : Handler := ⟨1, "onCancelForm"⟩

def witPageState : EvState :=
  (on' (on' initState (some 0) "click" (some witH1) { pageId := some "page-1" }).snd
    (some 0) "keyup" (some witH2) { pageId := some "page-1" }).snd

/-- Two distinct closures (different reference identity) with identical
source text, as produced by two evaluations of the same function
expression. -/
def cexH1 : Handler := ⟨0, "() => openModal()"⟩

def cexH2 : Handler := ⟨1, "() => openModal()"⟩

/-- The drifted state: register a handler, then `off` with a *different*
closure of identical source text.  `off` removes the bookkeeping entry but
`removeEventListener` is called with the passed (unregistered) function, so
the platform listener for the original handler stays attached. -/
def driftState : EvState :=
  (off (on' initState (some 0) "click" (some cexH1) {}).snd
    (some 0) "click" (some cexH2)).snd

end CommunityFE

namespace CommunityFE

/-! ## Basic lemmas about keys, filters and the native table -/

/-- String concatenation is left-cancellative. -/
theorem string_append_cancel (p a b : String) : p ++ a = p ++ b ↔ a = b := by
  constructor
  · intro h
    apply String.ext
    have h2 := congrArg String.data h
    simp only [String.data_append] at h2
    exact List.append_cancel_left h2
  · intro h
    rw [h]

/-- For a subscription whose event type is `t`, `getKey` equality against
`` `${t}:${h.toString()}` `` is exactly source-text equality of the
handlers. -/
theorem getKey_eq_iff (m : ListenerMeta) (t : String) (h : Handler)
    (ht : m.eventType = t) :
    (m.getKey == t ++ ":" ++ h.src) = true ↔ m.handler.src = h.src := by
  subst ht
  rw [beq_iff_eq, ListenerMeta.getKey, String.append_assoc, String.append_assoc,
    string_append_cancel, string_append_cancel]

theorem mem_typeListeners {s : EvState} {e : Nat} {t : String} {m : ListenerMeta} :
    m ∈ typeListenersOf s e t ↔ m ∈ s.byElement ∧ m.element = e ∧ m.eventType = t := by
  simp [typeListenersOf, List.mem_filter, and_assoc]

theorem hasDuplicate_iff {s : EvState} {e : Nat} {t : String} {h : Handler} :
    hasDuplicate s e t h = true ↔
      ∃ m ∈ s.byElement, m.element = e ∧ m.eventType = t ∧ m.handler.src = h.src := by
  rw [hasDuplicate, List.any_eq_true]
  constructor
  · rintro ⟨m, hm, hkey⟩
    obtain ⟨hmem, he, ht⟩ := mem_typeListeners.mp hm
    exact ⟨m, hmem, he, ht, (getKey_eq_iff m t h ht).mp hkey⟩
  · rintro ⟨m, hmem, he, ht, hsrc⟩
    exact ⟨m, mem_typeListeners.mpr ⟨hmem, he, ht⟩, (getKey_eq_iff m t h ht).mpr hsrc⟩

/-- Membership in a table after a sequence of `removeEventListener` calls:
with a duplicate-free table, exactly the entries not in the removal list
survive. -/
theorem mem_foldl_removeListener (xs : List NativeEntry) :
    ∀ (tbl : List NativeEntry), tbl.Nodup → ∀ n : NativeEntry,
      (n ∈ xs.foldl (fun acc x => removeListener acc x) tbl ↔ n ∈ tbl ∧ n ∉ xs) := by
  induction xs with
  | nil => intro tbl _ n; simp
  | cons x xs ih =>
    intro tbl hnd n
    rw [List.foldl_cons]
    rw [ih (removeListener tbl x) (hnd.erase x) n]
    unfold removeListener
    constructor
    · rintro ⟨hmem, hnot⟩
      have hne : n ≠ x := by
        intro hEq
        subst hEq
        exact (List.Nodup.not_mem_erase hnd) hmem
      refine ⟨List.mem_of_mem_erase hmem, ?_⟩
      simp only [List.mem_cons, not_or]
      exact ⟨hne, hnot⟩
    · rintro ⟨hmem, hnot⟩
      simp only [List.mem_cons, not_or] at hnot
      exact ⟨(List.mem_erase_of_ne hnot.1).mpr hmem, hnot.2⟩

/-- A sequence of `removeEventListener` calls keeps the table
duplicate-free. -/
theorem nodup_foldl_removeListener (xs : List NativeEntry) :
    ∀ (tbl : List NativeEntry), tbl.Nodup →
      (xs.foldl (fun acc x => removeListener acc x) tbl).Nodup := by
  induction xs with
  | nil => intro tbl hnd; simpa using hnd
  | cons x xs ih =>
    intro tbl hnd
    rw [List.foldl_cons]
    exact ih (removeListener tbl x) (hnd.erase x)

/-- A sequence of `removeEventListener` calls for distinct entries that are
all attached detaches exactly one listener each. -/
theorem length_foldl_removeListener (xs : List NativeEntry) :
    ∀ (tbl : List NativeEntry), tbl.Nodup → xs.Nodup → (∀ x ∈ xs, x ∈ tbl) →
      (xs.foldl (fun acc x => removeListener acc x) tbl).length + xs.length
        = tbl.length := by
  induction xs with
  | nil => intro tbl _ _ _; simp
  | cons x xs ih =>
    intro tbl hnd hxs hsub
    rw [List.foldl_cons]
    have hx : x ∈ tbl := hsub x (List.mem_cons_self x xs)
    have hxs' : xs.Nodup := (List.nodup_cons.mp hxs).2
    have hxnot : x ∉ xs := (List.nodup_cons.mp hxs).1
    have hsub' : ∀ y ∈ xs, y ∈ removeListener tbl x := by
      intro y hy
      have hyne : y ≠ x := fun hEq => hxnot (hEq ▸ hy)
      exact (List.mem_erase_of_ne hyne).mpr (hsub y (List.mem_cons_of_mem x hy))
    have := ih (removeListener tbl x) (hnd.erase x) hxs' hsub'
    have hlen : (removeListener tbl x).length = tbl.length - 1 :=
      List.length_erase_of_mem hx
    have hpos : 1 ≤ tbl.length := List.length_pos.mpr (List.ne_nil_of_mem hx)
    simp only [List.length_cons]
    omega

theorem WF.page_sub {s : EvState} (hwf : WF s) : s.byPage ⊆ s.byElement := by
  rw [hwf.2.2.2.1]
  exact (List.filter_sublist s.byElement).subset

theorem WF.page_truthy {s : EvState} (hwf : WF s) :
    ∀ m ∈ s.byPage, truthyStr m.pageId = true := by
  intro m hm
  rw [hwf.2.2.2.1] at hm
  exact (List.mem_filter.mp hm).2

end CommunityFE

namespace CommunityFE

theorem mem_addListener_iff (tbl : List NativeEntry) (n x : NativeEntry) :
    x ∈ addListener tbl n ↔ x ∈ tbl ∨ x = n := by
  unfold addListener
  split
  · rename_i hmem
    constructor
    · exact Or.inl
    · rintro (hx | rfl)
      · exact hx
      · exact hmem
  · simp

theorem nodup_addListener (tbl : List NativeEntry) (n : NativeEntry)
    (hnd : tbl.Nodup) : (addListener tbl n).Nodup := by
  unfold addListener
  split
  · exact hnd
  · rename_i hnot
    rw [List.nodup_append]
    exact ⟨hnd, List.nodup_singleton n, by simpa using fun h => hnot h⟩

theorem mem_erase_nodup {l : List NativeEntry} (hnd : l.Nodup) (a b : NativeEntry) :
    a ∈ l.erase b ↔ a ∈ l ∧ a ≠ b := by
  constructor
  · intro h
    refine ⟨List.mem_of_mem_erase h, ?_⟩
    intro hEq
    subst hEq
    exact (List.Nodup.not_mem_erase hnd) h
  · rintro ⟨hm, hne⟩
    exact (List.mem_erase_of_ne hne).mpr hm

/-- Unfolding equation for a successful `events.on`. -/
theorem on_success_eq (s : EvState) (e : Nat) (t : String) (h : Handler)
    (o : EvOptions) (ht : ¬t = "") (hdup : hasDuplicate s e t h = false) :
    on' s (some e) t (some h) o =
      (true,
        { nextUid := s.nextUid + 1,
          byElement := s.byElement ++ [newMeta s e t h o],
          byPage :=
            if truthyStr o.pageId then s.byPage ++ [newMeta s e t h o] else s.byPage,
          native := addListener s.native (nativeOf (newMeta s e t h o)) }) := by
  rw [on']
  rw [if_neg ht, hdup]
  simp

/-- `events.on` leaves the state untouched whenever it reports failure. -/
theorem on_false_noop (s : EvState) (el : Option Nat) (t : String)
    (hd : Option Handler) (o : EvOptions) (hfail : (on' s el t hd o).fst = false) :
    (on' s el t hd o).snd = s := by
  match el, hd with
  | none, none => rfl
  | none, some _ => rfl
  | some _, none => rfl
  | some e, some h =>
    by_cases ht : t = ""
    · rw [on', if_pos ht]
    · by_cases hdup : hasDuplicate s e t h = true
      · rw [on', if_neg ht, if_pos hdup]
      · rw [Bool.not_eq_true] at hdup
        rw [on_success_eq s e t h o ht hdup] at hfail
        simp at hfail

/-- A successful `events.on` passed its guards and its duplicate check. -/
theorem on_success_elim (s : EvState) (e : Nat) (t : String) (h : Handler)
    (o : EvOptions) (hsucc : (on' s (some e) t (some h) o).fst = true) :
    ¬t = "" ∧ hasDuplicate s e t h = false := by
  rw [on'] at hsucc
  split at hsucc
  · simp at hsucc
  · split at hsucc
    · simp at hsucc
    · rename_i ht hdup
      exact ⟨ht, Bool.not_eq_true _ ▸ Bool.of_not_eq_true hdup⟩

/-- `events.on` preserves well-formedness. -/
theorem WF_on (s : EvState) (el : Option Nat) (t : String) (hd : Option Handler)
    (o : EvOptions) (hwf : WF s) : WF (on' s el t hd o).snd := by
  match el, hd with
  | none, none => exact hwf
  | none, some _ => exact hwf
  | some _, none => exact hwf
  | some e, some h =>
    by_cases ht : t = ""
    · rw [on', if_pos ht]
      exact hwf
    by_cases hdup : hasDuplicate s e t h = true
    · rw [on', if_neg ht, if_pos hdup]
      exact hwf
    rw [Bool.not_eq_true] at hdup
    rw [on_success_eq s e t h o ht hdup]
    dsimp only
    obtain ⟨huid, hnd, hinj, hpage, hkey, hnat, hnnd⟩ := hwf
    set meta := newMeta s e t h o with hmeta
    have hmuid : meta.uid = s.nextUid := rfl
    have hmel : meta.element = e := rfl
    have hmty : meta.eventType = t := rfl
    have hmsrc : meta.handler = h := rfl
    have hnewmem : meta ∉ s.byElement := by
      intro hmem
      have := huid meta hmem
      omega
    refine ⟨?_, ?_, ?_, ?_, ?_, ?_, ?_⟩
    · intro m hm
      show m.uid < s.nextUid + 1
      rcases List.mem_append.mp hm with hm | hm
      · have := huid m hm
        omega
      · rcases List.mem_singleton.mp hm with rfl
        rw [hmuid]
        omega
    · rw [List.nodup_append]
      refine ⟨hnd, List.nodup_singleton _, ?_⟩
      intro a ha hb
      rcases List.mem_singleton.mp hb with rfl
      exact hnewmem ha
    · intro a ha b hb hab
      rcases List.mem_append.mp ha with ha | ha <;>
        rcases List.mem_append.mp hb with hb | hb
      · exact hinj a ha b hb hab
      · rcases List.mem_singleton.mp hb with rfl
        have := huid a ha
        rw [hab, hmuid] at this
        omega
      · rcases List.mem_singleton.mp ha with rfl
        have := huid b hb
        rw [← hab, hmuid] at this
        omega
      · rw [List.mem_singleton.mp ha, List.mem_singleton.mp hb]
    · rw [List.filter_append, ← hpage]
      have hmpage : meta.pageId = if truthyStr o.pageId then o.pageId else none := rfl
      have htr : truthyStr meta.pageId = truthyStr o.pageId := by
        rw [hmpage]
        by_cases hc : truthyStr o.pageId = true
        · rw [if_pos hc]
        · rw [if_neg hc]
          rw [Bool.not_eq_true] at hc
          rw [hc]
          rfl
      by_cases hc : truthyStr o.pageId = true
      · simp [hc, htr]
      · rw [Bool.not_eq_true] at hc
        rw [hc]
        simp [htr, hc]
    · intro a ha b hb hel hev hsrc
      rcases List.mem_append.mp ha with ha | ha <;>
        rcases List.mem_append.mp hb with hb | hb
      · exact hkey a ha b hb hel hev hsrc
      · rcases List.mem_singleton.mp hb with rfl
        exfalso
        rw [Bool.eq_false_iff] at hdup
        exact hdup (hasDuplicate_iff.mpr
          ⟨a, ha, by rw [hel, hmel], by rw [hev, hmty], by rw [hsrc, hmsrc]⟩)
      · rcases List.mem_singleton.mp ha with rfl
        exfalso
        rw [Bool.eq_false_iff] at hdup
        exact hdup (hasDuplicate_iff.mpr
          ⟨b, hb, by rw [← hel, hmel], by rw [← hev, hmty], by rw [← hsrc, hmsrc]⟩)
      · rw [List.mem_singleton.mp ha, List.mem_singleton.mp hb]
    · intro m hm
      rcases List.mem_append.mp hm with hm | hm
      · exact (mem_addListener_iff _ _ _).mpr (Or.inl (hnat m hm))
      · rcases List.mem_singleton.mp hm with rfl
        exact (mem_addListener_iff _ _ _).mpr (Or.inr rfl)
    · exact nodup_addListener _ _ hnnd

/-- `events.on` preserves native/bookkeeping consistency. -/
theorem Consistent_on (s : EvState) (el : Option Nat) (t : String)
    (hd : Option Handler) (o : EvOptions) (hcons : Consistent s) :
    Consistent (on' s el t hd o).snd := by
  match el, hd with
  | none, none => exact hcons
  | none, some _ => exact hcons
  | some _, none => exact hcons
  | some e, some h =>
    by_cases ht : t = ""
    · rw [on', if_pos ht]
      exact hcons
    by_cases hdup : hasDuplicate s e t h = true
    · rw [on', if_neg ht, if_pos hdup]
      exact hcons
    rw [Bool.not_eq_true] at hdup
    rw [on_success_eq s e t h o ht hdup]
    dsimp only
    obtain ⟨hfwd, hbwd⟩ := hcons
    constructor
    · intro n hn
      rcases (mem_addListener_iff _ _ _).mp hn with hn | rfl
      · have := hfwd n hn
        simp only [List.map_append, List.mem_append]
        exact Or.inl this
      · simp
    · intro m hm
      rcases List.mem_append.mp hm with hm | hm
      · exact (mem_addListener_iff _ _ _).mpr (Or.inl (hbwd m hm))
      · rcases List.mem_singleton.mp hm with rfl
        exact (mem_addListener_iff _ _ _).mpr (Or.inr rfl)

end CommunityFE

namespace CommunityFE

/-- Facts about the subscription found by `events.off`: it is recorded, it
is for the requested element and event type, and its handler's source text
equals the passed handler's. -/
theorem off_found_elim {s : EvState} {e : Nat} {t : String} {h : Handler}
    {found : ListenerMeta}
    (hfind : (typeListenersOf s e t).find?
      (fun m => m.getKey == t ++ ":" ++ h.src) = some found) :
    found ∈ s.byElement ∧ found.element = e ∧ found.eventType = t ∧
      found.handler.src = h.src := by
  have hmem := List.mem_of_find?_eq_some hfind
  have hpred := List.find?_some hfind
  obtain ⟨hb, he, ht⟩ := mem_typeListeners.mp hmem
  exact ⟨hb, he, ht, (getKey_eq_iff found t h ht).mp hpred⟩

/-- Unfolding equation for a successful `events.off`. -/
theorem off_found_eq (s : EvState) (e : Nat) (t : String) (h : Handler)
    (found : ListenerMeta) (ht : ¬t = "")
    (hfind : (typeListenersOf s e t).find?
      (fun m => m.getKey == t ++ ":" ++ h.src) = some found) :
    off s (some e) t (some h) =
      (true,
        { nextUid := s.nextUid,
          byElement := s.byElement.filter fun m => m.uid != found.uid,
          byPage :=
            if truthyStr found.pageId then
              s.byPage.filter fun m => m.uid != found.uid
            else s.byPage,
          native := removeListener s.native ⟨e, t, h, found.opts.capture⟩ }) := by
  rw [off, if_neg ht, hfind]

/-- `events.off` leaves the state untouched whenever it reports failure. -/
theorem off_false_noop (s : EvState) (el : Option Nat) (t : String)
    (hd : Option Handler) (hfail : (off s el t hd).fst = false) :
    (off s el t hd).snd = s := by
  match el, hd with
  | none, none => rfl
  | none, some _ => rfl
  | some _, none => rfl
  | some e, some h =>
    by_cases ht : t = ""
    · rw [off, if_pos ht]
    · cases hfind : (typeListenersOf s e t).find?
        (fun m => m.getKey == t ++ ":" ++ h.src) with
      | none => rw [off, if_neg ht, hfind]
      | some found =>
        rw [off_found_eq s e t h found ht hfind] at hfail
        simp at hfail

/-- `events.off` preserves well-formedness. -/
theorem WF_off (s : EvState) (el : Option Nat) (t : String) (hd : Option Handler)
    (hwf : WF s) : WF (off s el t hd).snd := by
  match el, hd with
  | none, none => exact hwf
  | none, some _ => exact hwf
  | some _, none => exact hwf
  | some e, some h =>
    by_cases ht : t = ""
    · rw [off, if_pos ht]
      exact hwf
    cases hfind : (typeListenersOf s e t).find?
        (fun m => m.getKey == t ++ ":" ++ h.src) with
    | none =>
      rw [off, if_neg ht, hfind]
      exact hwf
    | some found =>
      rw [off_found_eq s e t h found ht hfind]
      dsimp only
      obtain ⟨hfd, hfe, hft, hfsrc⟩ := off_found_elim hfind
      obtain ⟨huid, hnd, hinj, hpage, hkey, hnat, hnnd⟩ := hwf
      have hmem' : ∀ {m : ListenerMeta},
          m ∈ s.byElement.filter (fun m => m.uid != found.uid) ↔
            m ∈ s.byElement ∧ m.uid ≠ found.uid := by
        intro m
        simp [List.mem_filter]
      have hnedrop : ∀ m ∈ s.byElement, m.uid ≠ found.uid →
          nativeOf m ≠ (⟨e, t, h, found.opts.capture⟩ : NativeEntry) := by
        intro m hm hmu heq
        rw [nativeOf, NativeEntry.mk.injEq] at heq
        obtain ⟨h1, h2, h3, _⟩ := heq
        have : m = found := hkey m hm found hfd (h1.trans hfe.symm) (h2.trans hft.symm)
          (by rw [h3, hfsrc])
        exact hmu (congrArg ListenerMeta.uid this)
      refine ⟨?_, ?_, ?_, ?_, ?_, ?_, ?_⟩
      · intro m hm
        exact huid m (hmem'.mp hm).1
      · exact hnd.filter _
      · intro a ha b hb
        exact hinj a (hmem'.mp ha).1 b (hmem'.mp hb).1
      · by_cases hc : truthyStr found.pageId = true
        · rw [if_pos hc, hpage, List.filter_filter, List.filter_filter]
          exact List.filter_congr fun m _ => Bool.and_comm _ _
        · rw [if_neg hc, hpage, List.filter_filter]
          refine (List.filter_congr fun m hm => ?_).symm
          by_cases htr : truthyStr m.pageId = true
          · rw [htr, Bool.true_and]
            have : m.uid ≠ found.uid := by
              intro hEq
              have : m = found := hinj m hm found hfd hEq
              subst this
              exact hc htr
            simpa using this
          · rw [Bool.not_eq_true] at htr
            rw [htr, Bool.false_and]
      · intro a ha b hb
        exact hkey a (hmem'.mp ha).1 b (hmem'.mp hb).1
      · intro m hm
        obtain ⟨hm, hmu⟩ := hmem'.mp hm
        exact (List.mem_erase_of_ne (hnedrop m hm hmu)).mpr (hnat m hm)
      · exact hnnd.erase _

/-- When the handler's source text identifies it among the recorded handlers
(in particular when `off` receives the very handler object that was
registered), `events.off` preserves native/bookkeeping consistency. -/
theorem Consistent_off (s : EvState) (e : Nat) (t : String) (h : Handler)
    (hwf : WF s) (hcons : Consistent s)
    (hid : ∀ m ∈ s.byElement, m.handler.src = h.src → m.handler = h) :
    Consistent (off s (some e) t (some h)).snd := by
  by_cases ht : t = ""
  · rw [off, if_pos ht]
    exact hcons
  cases hfind : (typeListenersOf s e t).find?
      (fun m => m.getKey == t ++ ":" ++ h.src) with
  | none =>
    rw [off, if_neg ht, hfind]
    exact hcons
  | some found =>
    rw [off_found_eq s e t h found ht hfind]
    dsimp only
    obtain ⟨hfd, hfe, hft, hfsrc⟩ := off_found_elim hfind
    obtain ⟨huid, hnd, hinj, hpage, hkey, hnat, hnnd⟩ := hwf
    obtain ⟨hfwd, hbwd⟩ := hcons
    have hfh : found.handler = h := hid found hfd hfsrc
    have hn0 : (⟨e, t, h, found.opts.capture⟩ : NativeEntry) = nativeOf found := by
      rw [nativeOf, hfe, hft, hfh]
    have hmem' : ∀ {m : ListenerMeta},
        m ∈ s.byElement.filter (fun m => m.uid != found.uid) ↔
          m ∈ s.byElement ∧ m.uid ≠ found.uid := by
      intro m
      simp [List.mem_filter]
    have hinjnat : ∀ m ∈ s.byElement, nativeOf m = nativeOf found → m = found := by
      intro m hm heq
      rw [nativeOf, nativeOf, NativeEntry.mk.injEq] at heq
      obtain ⟨h1, h2, h3, _⟩ := heq
      exact hkey m hm found hfd h1 h2 (congrArg Handler.src h3)
    constructor
    · intro n hn
      rw [removeListener, hn0, mem_erase_nodup hnnd] at hn
      obtain ⟨hn, hne⟩ := hn
      obtain ⟨m, hm, rfl⟩ := List.mem_map.mp (hfwd n hn)
      have hmf : m ≠ found := fun hEq => hne (congrArg nativeOf hEq)
      have hmu : m.uid ≠ found.uid := fun hEq => hmf (hinj m hm found hfd hEq)
      exact List.mem_map.mpr ⟨m, hmem'.mpr ⟨hm, hmu⟩, rfl⟩
    · intro m hm
      obtain ⟨hm, hmu⟩ := hmem'.mp hm
      rw [removeListener, hn0, mem_erase_nodup hnnd]
      refine ⟨hnat m hm, fun hEq => hmu ?_⟩
      exact congrArg ListenerMeta.uid (hinjnat m hm hEq)

end CommunityFE

namespace CommunityFE

/-- `events.removeAll` preserves well-formedness. -/
theorem WF_removeAll (s : EvState) (el : Option Nat) (hwf : WF s) :
    WF (removeAll s el).snd := by
  match el with
  | none => exact hwf
  | some e =>
    obtain ⟨huid, hnd, hinj, hpage, hkey, hnat, hnnd⟩ := hwf
    rw [removeAll]
    dsimp only
    set metas := s.byElement.filter (fun m => m.element == e) with hmetas
    have hfold : metas.foldl (fun tbl m => removeListener tbl (nativeOf m)) s.native
        = (metas.map nativeOf).foldl (fun acc x => removeListener acc x) s.native :=
      (List.foldl_map _ _ _ _).symm
    have hmem' : ∀ {m : ListenerMeta},
        m ∈ s.byElement.filter (fun m => m.element != e) ↔
          m ∈ s.byElement ∧ m.element ≠ e := by
      intro m
      simp [List.mem_filter]
    have hnotent : ∀ m ∈ s.byElement, m.element ≠ e →
        nativeOf m ∉ metas.map nativeOf := by
      intro m _ hne hin
      obtain ⟨mm, hmm, hEq⟩ := List.mem_map.mp hin
      have hmme : mm.element = e := by
        have := (List.mem_filter.mp hmm).2
        simpa using this
      have : mm.element = m.element := congrArg NativeEntry.element hEq
      exact hne (this ▸ hmme)
    refine ⟨?_, ?_, ?_, ?_, ?_, ?_, ?_⟩
    · intro m hm
      exact huid m (hmem'.mp hm).1
    · exact hnd.filter _
    · intro a ha b hb
      exact hinj a (hmem'.mp ha).1 b (hmem'.mp hb).1
    · have hPt : ∀ m ∈ s.byElement, truthyStr m.pageId = true →
          (!(metas.any fun mm => mm.uid == m.uid && truthyStr mm.pageId))
            = (m.element != e) := by
        intro m hm htr
        by_cases hel : m.element = e
        · have hmm : m ∈ metas := List.mem_filter.mpr ⟨hm, by simp [hel]⟩
          have hany : (metas.any fun mm => mm.uid == m.uid && truthyStr mm.pageId)
              = true := List.any_eq_true.mpr ⟨m, hmm, by simp [htr]⟩
          rw [hany, hel]
          simp
        · have hany : (metas.any fun mm => mm.uid == m.uid && truthyStr mm.pageId)
              = false := by
            rw [List.any_eq_false]
            intro mm hmm
            obtain ⟨hmmb, hmme⟩ := List.mem_filter.mp hmm
            by_cases huq : mm.uid = m.uid
            · have hEq : mm = m := hinj mm hmmb m hm huq
              subst hEq
              exact absurd (by simpa using hmme) hel
            · simp [huq]
          rw [hany]
          simp [hel]
      rw [hpage, List.filter_filter, List.filter_filter]
      refine List.filter_congr fun m hm => ?_
      by_cases htr : truthyStr m.pageId = true
      · rw [htr, Bool.and_true, Bool.true_and]
        exact hPt m hm htr
      · rw [Bool.not_eq_true] at htr
        rw [htr, Bool.and_false, Bool.false_and]
    · intro a ha b hb
      exact hkey a (hmem'.mp ha).1 b (hmem'.mp hb).1
    · intro m hm
      obtain ⟨hmb, hne⟩ := hmem'.mp hm
      rw [hfold, mem_foldl_removeListener _ _ hnnd]
      exact ⟨hnat m hmb, hnotent m hmb hne⟩
    · rw [hfold]
      exact nodup_foldl_removeListener _ _ hnnd

/-- `events.removeAll` preserves native/bookkeeping consistency. -/
theorem Consistent_removeAll (s : EvState) (el : Option Nat) (hwf : WF s)
    (hcons : Consistent s) : Consistent (removeAll s el).snd := by
  match el with
  | none => exact hcons
  | some e =>
    obtain ⟨huid, hnd, hinj, hpage, hkey, hnat, hnnd⟩ := hwf
    obtain ⟨hfwd, hbwd⟩ := hcons
    rw [removeAll]
    dsimp only
    set metas := s.byElement.filter (fun m => m.element == e) with hmetas
    have hfold : metas.foldl (fun tbl m => removeListener tbl (nativeOf m)) s.native
        = (metas.map nativeOf).foldl (fun acc x => removeListener acc x) s.native :=
      (List.foldl_map _ _ _ _).symm
    have hmem' : ∀ {m : ListenerMeta},
        m ∈ s.byElement.filter (fun m => m.element != e) ↔
          m ∈ s.byElement ∧ m.element ≠ e := by
      intro m
      simp [List.mem_filter]
    constructor
    · intro n hn
      rw [hfold, mem_foldl_removeListener _ _ hnnd] at hn
      obtain ⟨hn, hnent⟩ := hn
      obtain ⟨m, hm, rfl⟩ := List.mem_map.mp (hfwd n hn)
      have hne : m.element ≠ e := by
        intro hel
        exact hnent (List.mem_map.mpr
          ⟨m, List.mem_filter.mpr ⟨hm, by simp [hel]⟩, rfl⟩)
      exact List.mem_map.mpr ⟨m, hmem'.mpr ⟨hm, hne⟩, rfl⟩
    · intro m hm
      obtain ⟨hmb, hne⟩ := hmem'.mp hm
      rw [hfold, mem_foldl_removeListener _ _ hnnd]
      refine ⟨hnat m hmb, ?_⟩
      intro hin
      obtain ⟨mm, hmm, hEq⟩ := List.mem_map.mp hin
      have hmme : mm.element = e := by
        have := (List.mem_filter.mp hmm).2
        simpa using this
      have hel2 : mm.element = m.element := congrArg NativeEntry.element hEq
      exact hne (hel2 ▸ hmme)

end CommunityFE

namespace CommunityFE

/-- Under the registry's key-uniqueness, a subscription is determined by its
native table entry. -/
theorem nativeOf_inj_on {s : EvState}
    (hkey : ∀ a ∈ s.byElement, ∀ b ∈ s.byElement,
      a.element = b.element → a.eventType = b.eventType →
      a.handler.src = b.handler.src → a = b)
    {a b : ListenerMeta} (ha : a ∈ s.byElement) (hb : b ∈ s.byElement)
    (hEq : nativeOf a = nativeOf b) : a = b := by
  have h1 : a.element = b.element := congrArg NativeEntry.element hEq
  have h2 : a.eventType = b.eventType := congrArg NativeEntry.eventType hEq
  have h3 : a.handler = b.handler := congrArg NativeEntry.handler hEq
  exact hkey a ha b hb h1 h2 (congrArg Handler.src h3)

/-- The subscriptions recorded for a (truthy) page identifier, under
well-formedness: exactly the recorded subscriptions whose normalised
`pageId` equals it. -/
theorem mem_pageMetas {s : EvState} {p : String} (hp : ¬p = "") (hwf : WF s)
    {m : ListenerMeta} (hm : m ∈ s.byElement) :
    m ∈ s.byPage.filter (fun mm => mm.pageId == some p) ↔ m.pageId = some p := by
  constructor
  · intro h
    have := (List.mem_filter.mp h).2
    simpa using this
  · intro h
    have htr : truthyStr m.pageId = true := by
      rw [h, truthyStr]
      simpa using hp
    have hbp : m ∈ s.byPage := by
      rw [hwf.2.2.2.1]
      exact List.mem_filter.mpr ⟨hm, htr⟩
    exact List.mem_filter.mpr ⟨hbp, by simp [h]⟩

/-- Survival condition of `removeAllForPage`'s element-map filter, under
well-formedness: a recorded subscription is kept exactly when its page
identifier differs. -/
theorem removeAllForPage_survives {s : EvState} {p : String} (hp : ¬p = "")
    (hwf : WF s) {m : ListenerMeta} (hm : m ∈ s.byElement) :
    (!((s.byPage.filter (fun mm => mm.pageId == some p)).any
        fun mm => mm.uid == m.uid)) = true ↔ ¬m.pageId = some p := by
  have hinj := hwf.2.2.1
  have hsub : s.byPage.filter (fun mm => mm.pageId == some p) ⊆ s.byElement :=
    (List.filter_sublist s.byPage).subset.trans hwf.page_sub
  rw [Bool.not_eq_true', List.any_eq_false]
  constructor
  · intro hall hpg
    have hmem : m ∈ s.byPage.filter (fun mm => mm.pageId == some p) :=
      (mem_pageMetas hp hwf hm).mpr hpg
    have := hall m hmem
    simp at this
  · intro hpg mm hmm
    by_cases huq : mm.uid = m.uid
    · have hEq : mm = m := hinj mm (hsub hmm) m hm huq
      subst hEq
      exact absurd ((mem_pageMetas hp hwf (hsub hmm)).mp hmm) hpg
    · simp [huq]

/-- `events.removeAllForPage` preserves well-formedness. -/
theorem WF_removeAllForPage (s : EvState) (p : String) (hwf : WF s) :
    WF (removeAllForPage s p).snd := by
  by_cases hp : p = ""
  · rw [removeAllForPage, if_pos hp]
    exact hwf
  have hwf' := hwf
  obtain ⟨huid, hnd, hinj, hpage, hkey, hnat, hnnd⟩ := hwf'
  rw [removeAllForPage, if_neg hp]
  dsimp only
  set metas := s.byPage.filter (fun m => m.pageId == some p) with hmetas
  have hsub : metas ⊆ s.byElement :=
    (List.filter_sublist s.byPage).subset.trans hwf.page_sub
  have hfold : metas.foldl (fun tbl m => removeListener tbl (nativeOf m)) s.native
      = (metas.map nativeOf).foldl (fun acc x => removeListener acc x) s.native :=
    (List.foldl_map _ _ _ _).symm
  have hmem' : ∀ {m : ListenerMeta},
      m ∈ s.byElement.filter (fun m => !(metas.any fun mm => mm.uid == m.uid)) ↔
        m ∈ s.byElement ∧ ¬m.pageId = some p := by
    intro m
    rw [List.mem_filter]
    constructor
    · rintro ⟨hm, hc⟩
      exact ⟨hm, (removeAllForPage_survives hp hwf hm).mp hc⟩
    · rintro ⟨hm, hc⟩
      exact ⟨hm, (removeAllForPage_survives hp hwf hm).mpr hc⟩
  have hnotent : ∀ m ∈ s.byElement, ¬m.pageId = some p →
      nativeOf m ∉ metas.map nativeOf := by
    intro m hm hne hin
    obtain ⟨mm, hmm, hEq⟩ := List.mem_map.mp hin
    have : mm = m := nativeOf_inj_on hkey (hsub hmm) hm hEq
    subst this
    exact hne ((mem_pageMetas hp hwf (hsub hmm)).mp hmm)
  refine ⟨?_, ?_, ?_, ?_, ?_, ?_, ?_⟩
  · intro m hm
    exact huid m (hmem'.mp hm).1
  · exact hnd.filter _
  · intro a ha b hb
    exact hinj a (hmem'.mp ha).1 b (hmem'.mp hb).1
  · rw [hpage, List.filter_filter, List.filter_filter]
    refine List.filter_congr fun m hm => ?_
    by_cases htr : truthyStr m.pageId = true
    · rw [htr, Bool.and_true, Bool.true_and]
      rw [Bool.eq_iff_iff]
      rw [removeAllForPage_survives hp hwf hm]
      simp
    · rw [Bool.not_eq_true] at htr
      rw [htr, Bool.and_false, Bool.false_and]
  · intro a ha b hb
    exact hkey a (hmem'.mp ha).1 b (hmem'.mp hb).1
  · intro m hm
    obtain ⟨hmb, hne⟩ := hmem'.mp hm
    rw [hfold, mem_foldl_removeListener _ _ hnnd]
    exact ⟨hnat m hmb, hnotent m hmb hne⟩
  · rw [hfold]
    exact nodup_foldl_removeListener _ _ hnnd

/-- `events.removeAllForPage` preserves native/bookkeeping consistency. -/
theorem Consistent_removeAllForPage (s : EvState) (p : String) (hwf : WF s)
    (hcons : Consistent s) : Consistent (removeAllForPage s p).snd := by
  by_cases hp : p = ""
  · rw [removeAllForPage, if_pos hp]
    exact hcons
  have hwf' := hwf
  obtain ⟨huid, hnd, hinj, hpage, hkey, hnat, hnnd⟩ := hwf'
  obtain ⟨hfwd, hbwd⟩ := hcons
  rw [removeAllForPage, if_neg hp]
  dsimp only
  set metas := s.byPage.filter (fun m => m.pageId == some p) with hmetas
  have hsub : metas ⊆ s.byElement :=
    (List.filter_sublist s.byPage).subset.trans hwf.page_sub
  have hfold : metas.foldl (fun tbl m => removeListener tbl (nativeOf m)) s.native
      = (metas.map nativeOf).foldl (fun acc x => removeListener acc x) s.native :=
    (List.foldl_map _ _ _ _).symm
  have hmem' : ∀ {m : ListenerMeta},
      m ∈ s.byElement.filter (fun m => !(metas.any fun mm => mm.uid == m.uid)) ↔
        m ∈ s.byElement ∧ ¬m.pageId = some p := by
    intro m
    rw [List.mem_filter]
    constructor
    · rintro ⟨hm, hc⟩
      exact ⟨hm, (removeAllForPage_survives hp hwf hm).mp hc⟩
    · rintro ⟨hm, hc⟩
      exact ⟨hm, (removeAllForPage_survives hp hwf hm).mpr hc⟩
  constructor
  · intro n hn
    rw [hfold, mem_foldl_removeListener _ _ hnnd] at hn
    obtain ⟨hn, hnent⟩ := hn
    obtain ⟨m, hm, rfl⟩ := List.mem_map.mp (hfwd n hn)
    have hne : ¬m.pageId = some p := by
      intro hpg
      exact hnent (List.mem_map.mpr ⟨m, (mem_pageMetas hp hwf hm).mpr hpg, rfl⟩)
    exact List.mem_map.mpr ⟨m, hmem'.mpr ⟨hm, hne⟩, rfl⟩
  · intro m hm
    obtain ⟨hmb, hne⟩ := hmem'.mp hm
    rw [hfold, mem_foldl_removeListener _ _ hnnd]
    refine ⟨hnat m hmb, ?_⟩
    intro hin
    obtain ⟨mm, hmm, hEq⟩ := List.mem_map.mp hin
    have : mm = m := nativeOf_inj_on hkey (hsub hmm) hmb hEq
    subst this
    exact hne ((mem_pageMetas hp hwf (hsub hmm)).mp hmm)

end CommunityFE

namespace CommunityFE

/-- C1: if `events.on(e, t, h, opts)` succeeds, a second call with identical
arguments returns `false` and leaves the state unchanged, and after both
calls exactly one platform listener for (e, t, h) is attached (none was
attached beforehand, registration being the only way to attach one). -/
theorem on_register_twice (s : EvState) (e : Nat) (t : String) (h : Handler)
    (opts : EvOptions) (hcount : nativeCount s e t h = 0)
    (hsucc : (on' s (some e) t (some h) opts).fst = true) :
    on' (on' s (some e) t (some h) opts).snd (some e) t (some h) opts
      = (false, (on' s (some e) t (some h) opts).snd) ∧
    nativeCount (on' s (some e) t (some h) opts).snd e t h = 1 := by
  obtain ⟨ht, hdup⟩ := on_success_elim s e t h opts hsucc
  have hstate := on_success_eq s e t h opts ht hdup
  have hmem2 : newMeta s e t h opts ∈ (on' s (some e) t (some h) opts).snd.byElement := by
    rw [hstate]
    exact List.mem_append.mpr (Or.inr (List.mem_singleton.mpr rfl))
  have hdup2 : hasDuplicate (on' s (some e) t (some h) opts).snd e t h = true :=
    hasDuplicate_iff.mpr ⟨newMeta s e t h opts, hmem2, rfl, rfl, rfl⟩
  constructor
  · rw [on', if_neg ht, if_pos hdup2]
  · have hnone : (⟨e, t, h, opts.capture⟩ : NativeEntry) ∉ s.native := by
      intro hmem
      have hfil : (⟨e, t, h, opts.capture⟩ : NativeEntry) ∈
          s.native.filter (fun n => n.element == e && n.eventType == t && n.handler == h) :=
        List.mem_filter.mpr ⟨hmem, by simp⟩
      rw [nativeCount, List.length_eq_zero] at hcount
      rw [hcount] at hfil
      simp at hfil
    have hnof : nativeOf (newMeta s e t h opts) = ⟨e, t, h, opts.capture⟩ := rfl
    have hadd : addListener s.native (nativeOf (newMeta s e t h opts))
        = s.native ++ [⟨e, t, h, opts.capture⟩] := by
      rw [hnof, addListener, if_neg hnone]
    have hfilnil : s.native.filter
        (fun n => n.element == e && n.eventType == t && n.handler == h) = [] := by
      rw [nativeCount, List.length_eq_zero] at hcount
      exact hcount
    rw [nativeCount, hstate]
    dsimp only
    rw [hadd, List.filter_append, hfilnil]
    simp

/-- Witness for C1 at a concrete registration from the initial state. -/
theorem on_register_twice_witness :
    nativeCount initState 0 "click" ⟨0, "handleClick"⟩ = 0 ∧
    (on' initState (some 0) "click" (some ⟨0, "handleClick"⟩) {}).fst = true ∧
    (on' (on' initState (some 0) "click" (some ⟨0, "handleClick"⟩) {}).snd
        (some 0) "click" (some ⟨0, "handleClick"⟩) {}
      = (false, (on' initState (some 0) "click" (some ⟨0, "handleClick"⟩) {}).snd) ∧
    nativeCount (on' initState (some 0) "click" (some ⟨0, "handleClick"⟩) {}).snd
        0 "click" ⟨0, "handleClick"⟩ = 1) :=
  ⟨by decide, by decide,
    on_register_twice initState 0 "click" ⟨0, "handleClick"⟩ {} (by decide) (by decide)⟩

end CommunityFE

namespace CommunityFE

/-- C2: with `N` subscriptions recorded under a scope, `removeAllForPage`
returns `N`, detaches exactly `N` platform listeners, leaves no
subscription associated with the scope, and an immediate second call
returns 0 and changes nothing. -/
theorem removeAllForPage_complete (s : EvState) (S : String) (hS : ¬S = "")
    (hwf : WF s) :
    (removeAllForPage s S).fst
        = (s.byPage.filter fun m => m.pageId == some S).length ∧
    (removeAllForPage s S).snd.native.length
        + (s.byPage.filter fun m => m.pageId == some S).length = s.native.length ∧
    ((removeAllForPage s S).snd.byPage.filter fun m => m.pageId == some S) = [] ∧
    removeAllForPage (removeAllForPage s S).snd S
        = (0, (removeAllForPage s S).snd) := by
  have hwfc := hwf
  obtain ⟨huid, hnd, hinj, hpage, hkey, hnat, hnnd⟩ := hwfc
  have hunfold : ∀ st : EvState, removeAllForPage st S =
      ((st.byPage.filter fun m => m.pageId == some S).length,
        { nextUid := st.nextUid,
          byElement := st.byElement.filter fun m =>
            !((st.byPage.filter fun mm => mm.pageId == some S).any
              fun mm => mm.uid == m.uid),
          byPage := st.byPage.filter fun m => !(m.pageId == some S),
          native := (st.byPage.filter fun m => m.pageId == some S).foldl
            (fun tbl m => removeListener tbl (nativeOf m)) st.native }) := by
    intro st
    rw [removeAllForPage, if_neg hS]
  have hsub : (s.byPage.filter fun m => m.pageId == some S) ⊆ s.byElement :=
    (List.filter_sublist s.byPage).subset.trans hwf.page_sub
  have hmnd : (s.byPage.filter fun m => m.pageId == some S).Nodup := by
    rw [hpage]
    exact (hnd.filter _).filter _
  have hend : ((s.byPage.filter fun m => m.pageId == some S).map nativeOf).Nodup :=
    hmnd.map_on fun x hx y hy hEq => nativeOf_inj_on hkey (hsub hx) (hsub hy) hEq
  have hein : ∀ x ∈ (s.byPage.filter fun m => m.pageId == some S).map nativeOf,
      x ∈ s.native := by
    intro x hx
    obtain ⟨m, hm, rfl⟩ := List.mem_map.mp hx
    exact hnat m (hsub hm)
  refine ⟨by rw [hunfold s], ?_, ?_, ?_⟩
  · rw [hunfold s]
    dsimp only
    rw [← List.foldl_map]
    have hlen := length_foldl_removeListener _ s.native hnnd hend hein
    rw [List.length_map] at hlen
    exact hlen
  · rw [hunfold s]
    dsimp only
    rw [List.filter_filter]
    have hfalse : ∀ m ∈ s.byPage,
        ((m.pageId == some S) && !(m.pageId == some S)) = false :=
      fun m _ => Bool.and_not_self _
    rw [List.filter_congr hfalse]
    exact List.filter_false _
  · have hc : ((removeAllForPage s S).snd.byPage.filter
        fun m => m.pageId == some S) = [] := by
      rw [hunfold s]
      dsimp only
      rw [List.filter_filter]
      have hfalse : ∀ m ∈ s.byPage,
          ((m.pageId == some S) && !(m.pageId == some S)) = false :=
        fun m _ => Bool.and_not_self _
      rw [List.filter_congr hfalse]
      exact List.filter_false _
    rw [hunfold ((removeAllForPage s S).snd), hc]
    simp only [List.length_nil, List.any_nil, Bool.not_false, List.foldl_nil]
    rw [List.filter_true]
    have hbp : (removeAllForPage s S).snd.byPage
        = s.byPage.filter fun m => !(m.pageId == some S) := by
      rw [hunfold s]
    rw [hbp, List.filter_filter]
    have hself : ∀ m ∈ s.byPage,
        ((!(m.pageId == some S)) && !(m.pageId == some S))
          = (!(m.pageId == some S)) :=
      fun m _ => Bool.and_self _
    rw [List.filter_congr hself, ← hbp]

/-- Witness for C2 at a concrete state with two subscriptions under scope
`"page-1"`. -/
theorem removeAllForPage_complete_witness :
    (¬"page-1" = "") ∧ WF witPageState ∧
    ((removeAllForPage witPageState "page-1").fst
        = (witPageState.byPage.filter fun m => m.pageId == some "page-1").length ∧
    (removeAllForPage witPageState "page-1").snd.native.length
        + (witPageState.byPage.filter fun m => m.pageId == some "page-1").length
        = witPageState.native.length ∧
    ((removeAllForPage witPageState "page-1").snd.byPage.filter
        fun m => m.pageId == some "page-1") = [] ∧
    removeAllForPage (removeAllForPage witPageState "page-1").snd "page-1"
        = (0, (removeAllForPage witPageState "page-1").snd)) :=
  ⟨by decide, by decide,
    removeAllForPage_complete witPageState "page-1" (by decide) (by decide)⟩

end CommunityFE

namespace CommunityFE

/-- C6: scope teardown touches only the named scope — a subscription
recorded under scope `A` stays in both bookkeeping maps and keeps its
platform listener attached across `removeAllForPage B` for any `B ≠ A`. -/
theorem removeAllForPage_cross_scope (s : EvState) (A B : String)
    (m : ListenerMeta) (hwf : WF s) (hAB : A ≠ B) (hm : m ∈ s.byPage)
    (hpg : m.pageId = some A) :
    m ∈ (removeAllForPage s B).snd.byPage ∧
    m ∈ (removeAllForPage s B).snd.byElement ∧
    nativeOf m ∈ (removeAllForPage s B).snd.native := by
  have hwfc := hwf
  obtain ⟨huid, hnd, hinj, hpage, hkey, hnat, hnnd⟩ := hwfc
  have hmb : m ∈ s.byElement := hwf.page_sub hm
  by_cases hB : B = ""
  · rw [removeAllForPage, if_pos hB]
    exact ⟨hm, hmb, hnat m hmb⟩
  rw [removeAllForPage, if_neg hB]
  dsimp only
  have hne : ¬m.pageId = some B := by
    intro hEq
    rw [hpg] at hEq
    exact hAB (Option.some.inj hEq)
  have hsub : (s.byPage.filter fun mm => mm.pageId == some B) ⊆ s.byElement :=
    (List.filter_sublist s.byPage).subset.trans hwf.page_sub
  refine ⟨?_, ?_, ?_⟩
  · refine List.mem_filter.mpr ⟨hm, ?_⟩
    simp [hne]
  · exact List.mem_filter.mpr ⟨hmb, (removeAllForPage_survives hB hwf hmb).mpr hne⟩
  · rw [← List.foldl_map, mem_foldl_removeListener _ _ hnnd]
    refine ⟨hnat m hmb, ?_⟩
    intro hin
    obtain ⟨mm, hmm, hEq⟩ := List.mem_map.mp hin
    have : mm = m := nativeOf_inj_on hkey (hsub hmm) hmb hEq
    subst this
    exact hne ((mem_pageMetas hB hwf (hsub hmm)).mp hmm)

/-- Witness for C6: a subscription under scope `"page-1"` survives the
teardown of scope `"page-2"`. -/
theorem removeAllForPage_cross_scope_witness :
    WF witPageState ∧ ("page-1" : String) ≠ "page-2" ∧
    newMeta initState 0 "click" witH1 { pageId := some "page-1" }
      ∈ witPageState.byPage ∧
    (newMeta initState 0 "click" witH1 { pageId := some "page-1" }).pageId
      = some "page-1" ∧
    (newMeta initState 0 "click" witH1 { pageId := some "page-1" }
        ∈ (removeAllForPage witPageState "page-2").snd.byPage ∧
     newMeta initState 0 "click" witH1 { pageId := some "page-1" }
        ∈ (removeAllForPage witPageState "page-2").snd.byElement ∧
     nativeOf (newMeta initState 0 "click" witH1 { pageId := some "page-1" })
        ∈ (removeAllForPage witPageState "page-2").snd.native) :=
  ⟨by decide, by decide, by decide, by decide,
    removeAllForPage_cross_scope witPageState "page-1" "page-2"
      (newMeta initState 0 "click" witH1 { pageId := some "page-1" })
      (by decide) (by decide) (by decide) (by decide)⟩

/-- C7: `events.removeAll(t)` removes every subscription bound to the
target regardless of scope — it returns their number, afterwards the
element map holds none of them, and no scope's set retains a subscription
of the target. -/
theorem removeAll_target_cascade (s : EvState) (e : Nat) (hwf : WF s) :
    (removeAll s (some e)).fst
        = (s.byElement.filter fun m => m.element == e).length ∧
    ((removeAll s (some e)).snd.byElement.filter fun m => m.element == e) = [] ∧
    ∀ m ∈ (removeAll s (some e)).snd.byPage, m.element ≠ e := by
  have hwfc := hwf
  obtain ⟨huid, hnd, hinj, hpage, hkey, hnat, hnnd⟩ := hwfc
  rw [removeAll]
  dsimp only
  refine ⟨rfl, ?_, ?_⟩
  · rw [List.filter_filter]
    have hfalse : ∀ m ∈ s.byElement,
        ((m.element == e) && (m.element != e)) = false := by
      intro m _
      show ((m.element == e) && !(m.element == e)) = false
      exact Bool.and_not_self _
    rw [List.filter_congr hfalse]
    exact List.filter_false _
  · intro m hm
    obtain ⟨hmp, hcond⟩ := List.mem_filter.mp hm
    intro hel
    have hmb : m ∈ s.byElement := hwf.page_sub hmp
    have htr : truthyStr m.pageId = true := hwf.page_truthy m hmp
    have hmm : m ∈ s.byElement.filter (fun mm => mm.element == e) :=
      List.mem_filter.mpr ⟨hmb, by simp [hel]⟩
    have hany : ((s.byElement.filter fun mm => mm.element == e).any
        fun mm => mm.uid == m.uid && truthyStr mm.pageId) = true :=
      List.any_eq_true.mpr ⟨m, hmm, by simp [htr]⟩
    rw [hany] at hcond
    simp at hcond

/-- Witness for C7 at the concrete two-subscription state. -/
theorem removeAll_target_cascade_witness :
    WF witPageState ∧
    ((removeAll witPageState (some 0)).fst
        = (witPageState.byElement.filter fun m => m.element == 0).length ∧
    ((removeAll witPageState (some 0)).snd.byElement.filter
        fun m => m.element == 0) = [] ∧
    ∀ m ∈ (removeAll witPageState (some 0)).snd.byPage, m.element ≠ 0) :=
  ⟨by decide, removeAll_target_cascade witPageState 0 (by decide)⟩

end CommunityFE

namespace CommunityFE

/-- Counterexample to C3: the registry's duplicate matching is *not* by
reference identity of the handler — a fresh closure with the same source
text as a registered one (`cexH1 ≠ cexH2`, equal `toString`) *is* rejected
as a duplicate by the second `events.on`. -/
theorem on_reference_identity_cex :
    cexH1 ≠ cexH2 ∧
    (on' initState (some 0) "click" (some cexH1) {}).fst = true ∧
    (on' (on' initState (some 0) "click" (some cexH1) {}).snd
        (some 0) "click" (some cexH2) {}).fst = false := by
  decide

/-- C3 (amended): duplicate matching is by target and event name plus the
*source text* of the handler (`handler.toString()`): registration succeeds
exactly when no recorded subscription on the same target and event carries
a handler with equal source text — regardless of reference identity. -/
theorem on_match_by_source_text :
    (∀ (s : EvState) (e : Nat) (t : String) (h : Handler) (o : EvOptions),
      ¬t = "" →
      (∀ m ∈ s.byElement, m.element = e → m.eventType = t →
        m.handler.src ≠ h.src) →
      (on' s (some e) t (some h) o).fst = true) ∧
    (∀ (s : EvState) (e : Nat) (t : String) (h : Handler) (o : EvOptions)
        (m : ListenerMeta), m ∈ s.byElement → m.element = e → m.eventType = t →
      m.handler.src = h.src → (on' s (some e) t (some h) o).fst = false) := by
  constructor
  · intro s e t h o ht hno
    have hdup : hasDuplicate s e t h = false := by
      rw [← Bool.not_eq_true]
      intro hd
      obtain ⟨m, hm, he, htt, hsrc⟩ := hasDuplicate_iff.mp hd
      exact hno m hm he htt hsrc
    rw [on_success_eq s e t h o ht hdup]
  · intro s e t h o m hm he htt hsrc
    have hdup : hasDuplicate s e t h = true :=
      hasDuplicate_iff.mpr ⟨m, hm, he, htt, hsrc⟩
    by_cases htz : t = ""
    · rw [on', if_pos htz]
    · rw [on', if_neg htz, if_pos hdup]

/-- Witness for C3 (amended): a fresh source text registers, an equal
source text is rejected. -/
theorem on_match_by_source_text_witness :
    (on' initState (some 0) "click" (some cexH1) {}).fst = true ∧
    (on' (on' initState (some 0) "click" (some cexH1) {}).snd
        (some 0) "click" (some cexH2) {}).fst = false :=
  ⟨on_match_by_source_text.1 initState 0 "click" cexH1 {} (by decide) (by decide),
   on_match_by_source_text.2 (on' initState (some 0) "click" (some cexH1) {}).snd
     0 "click" cexH2 {} (newMeta initState 0 "click" cexH1 {})
     (by decide) (by decide) (by decide) (by decide)⟩

/-- C10: a failing `events.on` leaves the registry and the native table
untouched; in particular re-registering an existing (target, event,
handler) triple with *any* other `once`/`capture` options is rejected as a
duplicate (options are not part of the matching key) and the originally
registered subscription — with its original options — stays recorded. -/
theorem on_reject_state_unchanged :
    (∀ (s : EvState) (el : Option Nat) (t : String) (hd : Option Handler)
        (o : EvOptions),
      (on' s el t hd o).fst = false → (on' s el t hd o).snd = s) ∧
    (∀ (s : EvState) (e : Nat) (t : String) (h : Handler) (o o2 : EvOptions),
      (on' s (some e) t (some h) o).fst = true →
      on' (on' s (some e) t (some h) o).snd (some e) t (some h) o2
        = (false, (on' s (some e) t (some h) o).snd) ∧
      newMeta s e t h o ∈ (on' s (some e) t (some h) o).snd.byElement) := by
  constructor
  · exact on_false_noop
  · intro s e t h o o2 hsucc
    obtain ⟨ht, hdup⟩ := on_success_elim s e t h o hsucc
    have hstate := on_success_eq s e t h o ht hdup
    have hmem2 : newMeta s e t h o ∈ (on' s (some e) t (some h) o).snd.byElement := by
      rw [hstate]
      exact List.mem_append.mpr (Or.inr (List.mem_singleton.mpr rfl))
    have hdup2 : hasDuplicate (on' s (some e) t (some h) o).snd e t h = true :=
      hasDuplicate_iff.mpr ⟨newMeta s e t h o, hmem2, rfl, rfl, rfl⟩
    exact ⟨by rw [on', if_neg ht, if_pos hdup2], hmem2⟩

/-- Witness for C10: a concrete registration, re-registration with flipped
`once`/`capture` options rejected without state change, and a failing call
(empty event name) leaving the state unchanged. -/
theorem on_reject_state_unchanged_witness :
    (on' initState (some 0) "" (some witH1) {}).snd = initState ∧
    (on' initState (some 0) "click" (some witH1) {}).fst = true ∧
    (on' (on' initState (some 0) "click" (some witH1) {}).snd (some 0) "click"
        (some witH1) { once := true, capture := true }
      = (false, (on' initState (some 0) "click" (some witH1) {}).snd) ∧
     newMeta initState 0 "click" witH1 {}
      ∈ (on' initState (some 0) "click" (some witH1) {}).snd.byElement) :=
  ⟨on_reject_state_unchanged.1 initState (some 0) "" (some witH1) {} (by decide),
   by decide,
   on_reject_state_unchanged.2 initState 0 "click" witH1 {}
     { once := true, capture := true } (by decide)⟩

/-- Counterexample to C4: after `on(e, "click", cexH1)` followed by
`off(e, "click", cexH2)` (distinct closure, same source text — `off`
returns `true`), the bookkeeping maps are empty while one platform
listener is still attached: logical and actual registration state have
drifted apart. -/
theorem registry_consistency_cex :
    (off (on' initState (some 0) "click" (some cexH1) {}).snd
        (some 0) "click" (some cexH2)).fst = true ∧
    driftState.byElement = [] ∧
    driftState.byPage = [] ∧
    driftState.native ≠ [] ∧
    ¬Consistent driftState := by
  decide

/-- C4 (amended): well-formedness and native/bookkeeping consistency hold
initially and are preserved by every registry operation — by `off` under
the proviso that the passed handler's source text identifies it among the
recorded handlers (in particular when `off` receives the registered
handler object itself); without that proviso `off` can break consistency
(see the drift counterexample). -/
theorem registry_consistency_preserved :
    (WF initState ∧ Consistent initState) ∧
    (∀ (s : EvState) (el : Option Nat) (t : String) (hd : Option Handler)
        (o : EvOptions), WF s → Consistent s →
      WF (on' s el t hd o).snd ∧ Consistent (on' s el t hd o).snd) ∧
    (∀ (s : EvState) (el : Option Nat) (t : String) (hd : Option Handler)
        (o : EvOptions), WF s → Consistent s →
      WF (once s el t hd o).snd ∧ Consistent (once s el t hd o).snd) ∧
    (∀ (s : EvState) (el : Option Nat), WF s → Consistent s →
      WF (removeAll s el).snd ∧ Consistent (removeAll s el).snd) ∧
    (∀ (s : EvState) (p : String), WF s → Consistent s →
      WF (removeAllForPage s p).snd ∧ Consistent (removeAllForPage s p).snd) ∧
    (∀ (s : EvState) (e : Nat) (t : String) (h : Handler),
      WF s → Consistent s →
      (∀ m ∈ s.byElement, m.handler.src = h.src → m.handler = h) →
      WF (off s (some e) t (some h)).snd ∧
        Consistent (off s (some e) t (some h)).snd) := by
  refine ⟨⟨by decide, by decide⟩, ?_, ?_, ?_, ?_, ?_⟩
  · intro s el t hd o hwf hcons
    exact ⟨WF_on s el t hd o hwf, Consistent_on s el t hd o hcons⟩
  · intro s el t hd o hwf hcons
    exact ⟨WF_on s el t hd { o with once := true } hwf,
      Consistent_on s el t hd { o with once := true } hcons⟩
  · intro s el hwf hcons
    exact ⟨WF_removeAll s el hwf, Consistent_removeAll s el hwf hcons⟩
  · intro s p hwf hcons
    exact ⟨WF_removeAllForPage s p hwf, Consistent_removeAllForPage s p hwf hcons⟩
  · intro s e t h hwf hcons hid
    exact ⟨WF_off s (some e) t (some h) hwf, Consistent_off s e t h hwf hcons hid⟩

/-- Witness for C4 (amended): the invariant carried through a concrete
`on` and a matching-handler `off`. -/
theorem registry_consistency_preserved_witness :
    (WF (on' initState (some 0) "click" (some witH1) {}).snd ∧
     Consistent (on' initState (some 0) "click" (some witH1) {}).snd) ∧
    (WF (off (on' initState (some 0) "click" (some witH1) {}).snd
        (some 0) "click" (some witH1)).snd ∧
     Consistent (off (on' initState (some 0) "click" (some witH1) {}).snd
        (some 0) "click" (some witH1)).snd) :=
  ⟨registry_consistency_preserved.2.1 initState (some 0) "click" (some witH1) {}
      (by decide) (by decide),
   registry_consistency_preserved.2.2.2.2.2
      (on' initState (some 0) "click" (some witH1) {}).snd 0 "click" witH1
      (by decide) (by decide) (by decide)⟩

end CommunityFE

namespace CommunityFE

/-- The style writes of `handleTouchEnd` only clear transient state. -/
theorem touch_clear_visuals (te : Nat) (items : List Nat) :
    (VisualOp.clearLift te :: VisualOp.clearTransform te ::
      items.map VisualOp.clearHighlight).all VisualOp.isClearing = true := by
  rw [List.all_eq_true]
  intro x hx
  rcases List.mem_cons.mp hx with rfl | hx
  · rfl
  rcases List.mem_cons.mp hx with rfl | hx
  · rfl
  obtain ⟨i, _, rfl⟩ := List.mem_map.mp hx
  rfl

/-- C8: a completed pointer drag whose recorded source index differs from
the drop target's index invokes the reorder callback exactly once with
exactly (source, target) and the render callback once; applying the
conventional splice-remove-then-insert yields the reordered list
([A,B,C,D] with (0,2) gives [B,C,A,D]; [1,2,3] with (2,0) gives [3,1,2]);
and the post-edit page's drop handler performs exactly that splice with
one re-render. -/
theorem reorder_callback_correct :
    (∀ (s : DragState) (d t : Nat), d ≠ t →
      (handleDrop (handleDragStart s d).state t).reorderCalls = [(d, t)] ∧
      (handleDrop (handleDragStart s d).state t).renderCalls = 1) ∧
    (∀ (α : Type) (a b c d : α), spliceReorder [a, b, c, d] 0 2 = [b, c, a, d]) ∧
    spliceReorder [1, 2, 3] 2 0 = [3, 1, 2] ∧
    (∀ (α : Type) (l : List α) (d t : Nat), d ≠ t →
      handleDrop009 (some d) t l = (spliceReorder l d t, 1)) := by
  refine ⟨?_, ?_, ?_, ?_⟩
  · intro s d t hne
    constructor <;> simp [handleDrop, handleDragStart, hne]
  · intro α a b c d
    rfl
  · rfl
  · intro α l d t hne
    simp [handleDrop009, hne]

/-- Witness for C8: drag 0 → 2 over a four-item list, and the page's
handler on [1,2,3] dragging 2 → 0. -/
theorem reorder_callback_correct_witness :
    ((handleDrop (handleDragStart ⟨none, none, none⟩ 0).state 2).reorderCalls
        = [(0, 2)] ∧
     (handleDrop (handleDragStart ⟨none, none, none⟩ 0).state 2).renderCalls = 1) ∧
    spliceReorder ["A", "B", "C", "D"] 0 2 = ["B", "C", "A", "D"] ∧
    handleDrop009 (some 2) 0 [1, 2, 3] = (spliceReorder [1, 2, 3] 2 0, 1) :=
  ⟨reorder_callback_correct.1 ⟨none, none, none⟩ 0 2 (by decide),
   reorder_callback_correct.2.1 String "A" "B" "C" "D",
   reorder_callback_correct.2.2.2 Nat [1, 2, 3] 2 0 (by decide)⟩

/-- Counterexample to C9: a touch gesture that starts and ends on the same
index (index 0; no differing target was ever stored) invokes no reorder
callback — but `handleTouchEnd` *does* invoke the render callback once,
unconditionally, contradicting "no render callback is invoked … in both
the pointer-drag and the touch modality". -/
theorem touch_end_renders_cex :
    (handleTouchEnd (handleTouchStart ⟨none, none, none⟩ 0).state
        [0, 1]).reorderCalls = [] ∧
    (handleTouchEnd (handleTouchStart ⟨none, none, none⟩ 0).state
        [0, 1]).renderCalls = 1 := by
  decide

/-- C9 (amended): a gesture resolving on its source index (or with no
differing valid target) invokes no reorder callback in either modality and
only clearing style writes occur; the pointer modality also invokes no
render callback and leaves the session state untouched, while the touch
modality unconditionally invokes the render callback exactly once at
gesture end. -/
theorem no_move_gesture_noop :
    (∀ (s : DragState) (t : Nat),
      s.draggedIndex = none ∨ s.draggedIndex = some t →
      (handleDrop s t).reorderCalls = [] ∧ (handleDrop s t).renderCalls = 0 ∧
      (handleDrop s t).visuals.all VisualOp.isClearing = true ∧
      (handleDrop s t).state = s) ∧
    (∀ (s : DragState) (allItems : List Nat) (te : Nat),
      s.touchedElement = some te →
      (∀ d ft, s.draggedIndex = some d → s.targetIndexData = some ft → d = ft) →
      (handleTouchEnd s allItems).reorderCalls = [] ∧
      (handleTouchEnd s allItems).renderCalls = 1 ∧
      (handleTouchEnd s allItems).visuals.all VisualOp.isClearing = true) := by
  constructor
  · intro s t hcase
    rcases hcase with hnone | hsome
    · refine ⟨?_, ?_, ?_, ?_⟩ <;> simp [handleDrop, hnone, VisualOp.isClearing]
    · refine ⟨?_, ?_, ?_, ?_⟩ <;> simp [handleDrop, hsome, VisualOp.isClearing]
  · intro s allItems te hte hsame
    cases s with
    | mk di tel ti =>
      cases hte
      cases ti with
      | none => exact ⟨rfl, rfl, touch_clear_visuals te allItems⟩
      | some ft =>
        cases di with
        | none => exact ⟨rfl, rfl, touch_clear_visuals te allItems⟩
        | some d =>
          have hEq : d = ft := hsame d ft rfl rfl
          subst hEq
          refine ⟨?_, rfl, touch_clear_visuals te allItems⟩
          simp [handleTouchEnd]

/-- Witness for C9 (amended): a pointer drop on the source index and a
touch gesture with no stored target. -/
theorem no_move_gesture_noop_witness :
    ((handleDrop (handleDragStart ⟨none, none, none⟩ 1).state 1).reorderCalls = []
      ∧ (handleDrop (handleDragStart ⟨none, none, none⟩ 1).state 1).renderCalls = 0
      ∧ (handleDrop (handleDragStart ⟨none, none, none⟩ 1).state 1).visuals.all
          VisualOp.isClearing = true
      ∧ (handleDrop (handleDragStart ⟨none, none, none⟩ 1).state 1).state
          = (handleDragStart ⟨none, none, none⟩ 1).state) ∧
    ((handleTouchEnd (handleTouchStart ⟨none, none, none⟩ 0).state
        [0, 1]).reorderCalls = []
      ∧ (handleTouchEnd (handleTouchStart ⟨none, none, none⟩ 0).state
          [0, 1]).renderCalls = 1
      ∧ (handleTouchEnd (handleTouchStart ⟨none, none, none⟩ 0).state
          [0, 1]).visuals.all VisualOp.isClearing = true) :=
  ⟨no_move_gesture_noop.1 (handleDragStart ⟨none, none, none⟩ 1).state 1
      (Or.inr rfl),
   no_move_gesture_noop.2 (handleTouchStart ⟨none, none, none⟩ 0).state [0, 1] 0
      rfl (fun _ _ _ hft => Option.noConfusion hft)⟩

/-- Counterexample to C5: `createDraggableList` with a missing container
(all other required options present) does *not* report failure through a
boolean or count — it throws
`Error('createDraggableList: Required options missing')`. -/
theorem createDraggableList_throws_cex :
    createDraggableList
        { container := none, getItems := true, onReorder := true,
          onRender := true, pageId := "post-create" }
      = Except.error "createDraggableList: Required options missing" := rfl

/-- C5 (amended): the registry operations report every expected failure
(falsy target, falsy event name, non-function handler) through their
boolean/count return values with the state untouched, and the touch
handlers no-op without a touched element — but `createDraggableList`
itself *throws* exactly when one of its required options (container,
getItems, onReorder, onRender, pageId) is missing. -/
theorem no_throw_error_reporting :
    (∀ (s : EvState) (t : String) (hd : Option Handler) (o : EvOptions),
      on' s none t hd o = (false, s)) ∧
    (∀ (s : EvState) (el : Option Nat) (t : String) (o : EvOptions),
      on' s el t none o = (false, s)) ∧
    (∀ (s : EvState) (e : Nat) (h : Handler) (o : EvOptions),
      on' s (some e) "" (some h) o = (false, s)) ∧
    (∀ (s : EvState) (t : String) (hd : Option Handler),
      off s none t hd = (false, s)) ∧
    (∀ (s : EvState) (el : Option Nat) (t : String),
      off s el t none = (false, s)) ∧
    (∀ (s : EvState) (e : Nat) (h : Handler),
      off s (some e) "" (some h) = (false, s)) ∧
    (∀ s : EvState, removeAll s none = (0, s)) ∧
    (∀ s : EvState, removeAllForPage s "" = (0, s)) ∧
    (∀ (s : DragState) (eb : Option Nat) (items : List Nat),
      s.touchedElement = none → handleTouchMove s eb items = ⟨s, [], 0, []⟩) ∧
    (∀ (s : DragState) (items : List Nat),
      s.touchedElement = none → handleTouchEnd s items = ⟨s, [], 0, []⟩) ∧
    (∀ o : DragListOptions,
      createDraggableList o
          = Except.error "createDraggableList: Required options missing" ↔
        (o.container.isNone || !o.getItems || !o.onReorder || !o.onRender
          || o.pageId == "") = true) := by
  refine ⟨?_, ?_, ?_, ?_, ?_, ?_, ?_, ?_, ?_, ?_, ?_⟩
  · intro s t hd o
    cases hd <;> rfl
  · intro s el t o
    cases el <;> rfl
  · intro s e h o
    rw [on', if_pos rfl]
  · intro s t hd
    cases hd <;> rfl
  · intro s el t
    cases el <;> rfl
  · intro s e h
    rw [off, if_pos rfl]
  · intro s
    rfl
  · intro s
    rw [removeAllForPage, if_pos rfl]
  · intro s eb items hte
    cases s with
    | mk di te ti =>
      cases hte
      rfl
  · intro s items hte
    cases s with
    | mk di te ti =>
      cases hte
      rfl
  · intro o
    rw [createDraggableList]
    by_cases hcond : (o.container.isNone || !o.getItems || !o.onReorder
        || !o.onRender || o.pageId == "") = true
    · rw [if_pos hcond]
      simp [hcond]
    · rw [if_neg hcond]
      simp [hcond]

/-- Witness for C5 (amended): the touch handlers at concrete sessions with
no touched element. -/
theorem no_throw_error_reporting_witness :
    handleTouchMove ⟨some 1, none, none⟩ (some 0) [0, 1]
        = ⟨⟨some 1, none, none⟩, [], 0, []⟩ ∧
    handleTouchEnd ⟨none, none, some 2⟩ [0] = ⟨⟨none, none, some 2⟩, [], 0, []⟩ :=
  ⟨no_throw_error_reporting.2.2.2.2.2.2.2.2.1 ⟨some 1, none, none⟩ (some 0)
      [0, 1] rfl,
   no_throw_error_reporting.2.2.2.2.2.2.2.2.2.1 ⟨none, none, some 2⟩ [0] rfl⟩

end CommunityFE
